import Mathlib

/-!
# A model of `proxy.cpp`: a blocking, single-threaded TCP relay

`main` of `src/proxy.cpp` is a straight-line setup followed by an endless
`for (;;)` loop.  Every decision it takes depends only on the integer a
system call returned, and on the bytes `recv` stored in the transfer buffer.
The embedding therefore is a deterministic state machine:

* a *program counter* `Pc` names the blocking system call `main` is waiting in,
  together with the local variables that are live at that point;
* `step` consumes the result of that call (`Resp`) and runs `main` up to the
  next blocking call (or to a `return`), appending to the trace every call
  that completed, every console line, and every `close` performed by a
  `Socket` destructor;
* `run` feeds a finite script of results to `step`.  A script that ends while
  the program counter is not `exited` describes a run that is blocked in a
  system call.

`setsockopt`, `freeaddrinfo` and `close` return values that `main` ignores, so
they appear in the trace without consuming a result.
-/

namespace Proxy

/-- One `char` of the transfer buffer. -/
abbrev Byte := Nat

/-- What the operating system hands back from one blocking call: the integer
return value, and (for `recv`) the bytes it stored at the start of the buffer. -/
structure Resp where
  ret : Int
  data : List Byte
deriving DecidableEq, Repr

/-- Which descriptor variable a `recv`/`send` call site passes:
`client_sfd` or `server.get()`. -/
inductive Peer where
  | client
  | upstream
deriving DecidableEq, Repr

/-- The observable actions of `main`, each with its arguments and, for the calls
whose result `main` inspects, that result. -/
inductive Event where
  | getaddrinfo (host port : String) (ret : Int)
  | socket (ret : Int)
  | setsockopt (fd : Int)
  | bind (fd : Int) (ret : Int)
  | freeaddrinfo
  | listen (fd : Int) (ret : Int)
  | accept (fd : Int) (ret : Int)
  | connect (fd : Int) (ret : Int)
  | recv (peer : Peer) (fd : Int) (maxLen : Nat) (ret : Int) (data : List Byte)
  | send (peer : Peer) (fd : Int) (bytes : List Byte) (len : Int) (ret : Int)
  | close (fd : Int)
  | cout (msg : String)
  | coutLen (arrow : String) (n : Int)
  | cerr (msg : String)
  | cerrGai (msg : String) (code : Int)
deriving DecidableEq, Repr

def PROXY_PORT : String := "8000"
def PROXY_HOST : String := "0.0.0.0"
def SERVER_PORT : String := "9000"
def SERVER_HOST : String := "127.0.0.1"
def BUFFER_SIZE : Nat := 4096

/-- The length argument of both `recv` calls: `buffer.size() - 1`. -/
def recvLen : Nat := BUFFER_SIZE - 1

/-- The blocking call `main` is waiting in, with the live locals:
`lfd` is `endpoint.get()`, `cfd` is `client_sfd`, `sfd` is `server.get()`,
`len` is `client_msg_len` resp. `server_msg_len`. -/
inductive Pc where
  | gaiEndpoints
  | socketEndpoint
  | bind (lfd : Int)
  | listen (lfd : Int)
  | accept (lfd : Int)
  | gaiServer (lfd cfd : Int)
  | socketServer (lfd cfd : Int)
  | connect (lfd cfd sfd : Int)
  | recvClient (lfd cfd sfd : Int)
  | sendServer (lfd cfd sfd : Int) (len : Int)
  | recvServer (lfd cfd sfd : Int)
  | sendClient (lfd cfd sfd : Int) (len : Int)
  | exited (code : Int)
deriving DecidableEq, Repr

/-- The state of `main`: where it is, the transfer buffer, and everything it
has done so far. -/
structure State where
  pc : Pc
  buffer : List Byte
  trace : List Event
deriving DecidableEq, Repr

/-- `Socket::~Socket`: closes the descriptor when it is non-negative. -/
def Socket.dtor (socket_fd_ : Int) : List Event :=
  if socket_fd_ ≥ 0 then [Event.close socket_fd_] else []

/-- `recv(fd, buffer.data(), len, 0)`: the kernel stores at most `len` bytes at
the start of the buffer and leaves the rest of it untouched. -/
def recvInto (buffer : List Byte) (len : Nat) (r : Resp) : List Byte :=
  (r.data.take len) ++ buffer.drop (r.data.take len).length

/-- The bytes `send(fd, buffer.data(), len, 0)` is given: the first `len`
bytes of the buffer. -/
def sendArg (buffer : List Byte) (len : Int) : List Byte :=
  buffer.take len.toNat

/-- Continue at the next blocking call. -/
def State.goto (s : State) (pc : Pc) (evs : List Event) : State :=
  { s with pc := pc, trace := s.trace ++ evs }

/-- `return code;` from `main`, after the destructors of the live `Socket`s
(listed in `evs`) have run. -/
def State.exit (s : State) (code : Int) (evs : List Event) : State :=
  { s with pc := Pc.exited code, trace := s.trace ++ evs }

/-- One system call returns with `r`; `main` runs on to the next blocking call
or to its `return`.  `getaddrinfo` returning `0` stores a non-null list, so the
null branch of the `Socket` constructor is not taken from `main`. -/
def step (s : State) (r : Resp) : State :=
  match s.pc with
  | .gaiEndpoints =>
    -- lines 89-95
    if r.ret ≠ 0 then
      s.exit 1 [.getaddrinfo PROXY_HOST PROXY_PORT r.ret,
                .cerrGai "error gai_res_endpoints: " r.ret]
    else
      s.goto .socketEndpoint [.getaddrinfo PROXY_HOST PROXY_PORT r.ret]
  | .socketEndpoint =>
    -- lines 96-99, with the constructor of lines 38-51
    if r.ret < 0 then
      s.exit 1 ([.socket r.ret, .cerr "Error: socket creation failed."] ++ Socket.dtor r.ret)
    else
      s.goto (.bind r.ret) [.socket r.ret, .setsockopt r.ret]
  | .bind lfd =>
    -- lines 101-105
    if r.ret ≠ 0 then
      s.exit 1 ([.bind lfd r.ret, .cerr "Binding failed."] ++ Socket.dtor lfd)
    else
      s.goto (.listen lfd) [.bind lfd r.ret, .freeaddrinfo]
  | .listen lfd =>
    -- lines 107-114
    if r.ret ≠ 0 then
      s.exit 1 ([.listen lfd r.ret, .cerr " Listen failed."] ++ Socket.dtor lfd)
    else
      s.goto (.accept lfd)
        [.listen lfd r.ret, .cout "Listening for connections on: 0.0.0.0, 8000"]
  | .accept lfd =>
    -- lines 118-125
    if r.ret = -1 then
      s.exit 1 ([.accept lfd r.ret, .cerr "Accept client failed."] ++ Socket.dtor lfd)
    else
      s.goto (.gaiServer lfd r.ret) [.accept lfd r.ret, .cout "New connection from: "]
  | .gaiServer lfd cfd =>
    -- lines 127-134
    if r.ret ≠ 0 then
      s.exit 1 ([.getaddrinfo SERVER_HOST SERVER_PORT r.ret,
                 .cerrGai "error gai_res_server 2: " r.ret] ++ Socket.dtor lfd)
    else
      s.goto (.socketServer lfd cfd) [.getaddrinfo SERVER_HOST SERVER_PORT r.ret]
  | .socketServer lfd cfd =>
    -- lines 136-140, with the constructor of lines 38-51
    if r.ret < 0 then
      s.exit 1 ([.socket r.ret, .cerr "Error: socket creation failed.", .freeaddrinfo]
                ++ Socket.dtor r.ret ++ Socket.dtor lfd)
    else
      s.goto (.connect lfd cfd r.ret) [.socket r.ret, .setsockopt r.ret]
  | .connect lfd cfd sfd =>
    -- lines 143-150
    if r.ret ≠ 0 then
      s.exit 1 ([.connect sfd r.ret, .cerr "Connect server failed.", .freeaddrinfo]
                ++ Socket.dtor sfd ++ Socket.dtor lfd)
    else
      s.goto (.recvClient lfd cfd sfd)
        [.connect sfd r.ret, .cout "Connected to server.", .freeaddrinfo]
  | .recvClient lfd cfd sfd =>
    -- lines 153-160
    let s1 := { s with buffer := recvInto s.buffer recvLen r }
    let ev := Event.recv .client cfd recvLen r.ret (r.data.take recvLen)
    if r.ret < 0 then
      s1.exit 1 ([ev, .cerr "recv client failed."] ++ Socket.dtor sfd ++ Socket.dtor lfd)
    else
      s1.goto (.sendServer lfd cfd sfd r.ret) [ev, .coutLen "->*   " r.ret]
  | .sendServer lfd cfd sfd len =>
    -- lines 163-167
    let ev := Event.send .upstream sfd (sendArg s.buffer len) len r.ret
    if r.ret < 0 then
      s.exit 1 ([ev, .cerr "Send server failed."] ++ Socket.dtor sfd ++ Socket.dtor lfd)
    else
      s.goto (.recvServer lfd cfd sfd) [ev, .coutLen "  *-> " len]
  | .recvServer lfd cfd sfd =>
    -- lines 169-186: the `while` condition, then either the body's first
    -- statement, or the check after the loop and the end of the `for` body
    let s1 := { s with buffer := recvInto s.buffer recvLen r }
    let ev := Event.recv .upstream sfd recvLen r.ret (r.data.take recvLen)
    if r.ret > 0 then
      s1.goto (.sendClient lfd cfd sfd r.ret) [ev, .coutLen "  *<- " r.ret]
    else if r.ret < 0 then
      s1.exit 1 ([ev, .cerr "recv server failed."] ++ Socket.dtor sfd ++ Socket.dtor lfd)
    else
      s1.goto (.accept lfd) ([ev] ++ Socket.dtor sfd)
  | .sendClient lfd cfd sfd len =>
    -- lines 176-180
    let ev := Event.send .client cfd (sendArg s.buffer len) len r.ret
    if r.ret < 0 then
      s.exit 1 ([ev, .cerr "Send client failed."] ++ Socket.dtor sfd ++ Socket.dtor lfd)
    else
      s.goto (.recvServer lfd cfd sfd) [ev, .coutLen "<-*   " len]
  | .exited _ => s

/-- Feed a script of system-call results to `main`. -/
def run (s : State) (script : List Resp) : State :=
  script.foldl step s

/-- Entry of `main`: blocked in the first `getaddrinfo`, the buffer holding
whatever the stack held. -/
def start (buffer : List Byte) : State :=
  { pc := .gaiEndpoints, buffer := buffer, trace := [] }

/-- A result without payload. -/
def Resp.int (r : Int) : Resp := ⟨r, []⟩

/-- A successful `recv` of `bytes`. -/
def Resp.chunk (bytes : List Byte) : Resp := ⟨bytes.length, bytes⟩

/-! ### Exit status: the failure conditions -/

/-- When the result of the pending call counts as a failure, in the words of the
exit-code contract: non-zero address resolution, negative socket descriptor,
non-zero `bind`/`listen`/`connect`, `accept` returning `-1`, negative
`recv`/`send`. -/
def callFails : Pc → Resp → Bool
  | .gaiEndpoints, r => decide (r.ret ≠ 0)
  | .socketEndpoint, r => decide (r.ret < 0)
  | .bind _, r => decide (r.ret ≠ 0)
  | .listen _, r => decide (r.ret ≠ 0)
  | .accept _, r => decide (r.ret = -1)
  | .gaiServer _ _, r => decide (r.ret ≠ 0)
  | .socketServer _ _, r => decide (r.ret < 0)
  | .connect _ _ _, r => decide (r.ret ≠ 0)
  | .recvClient _ _ _, r => decide (r.ret < 0)
  | .sendServer _ _ _ _, r => decide (r.ret < 0)
  | .recvServer _ _ _, r => decide (r.ret < 0)
  | .sendClient _ _ _ _, r => decide (r.ret < 0)
  | .exited _, _ => false

/-- `main` has returned. -/
def Pc.isExited : Pc → Bool
  | .exited _ => true
  | _ => false

/-! ### Response forwarding: scripts and projections of the trace -/

/-- The results seen by a response phase in which upstream delivers the given
chunks: for each chunk the `recv` that returns it, then the result of the `send`
that forwards it. -/
def responseScript : List (List Byte × Int) → List Resp
  | [] => []
  | x :: rest => Resp.chunk x.1 :: Resp.int x.2 :: responseScript rest

/-- The event is a `send` on the given peer's descriptor variable. -/
def Event.isSendTo (p : Peer) : Event → Bool
  | .send q _ _ _ _ => decide (q = p)
  | _ => false

/-- The event is a `recv` on the given peer's descriptor variable. -/
def Event.isRecvFrom (p : Peer) : Event → Bool
  | .recv q _ _ _ _ => decide (q = p)
  | _ => false

/-- What one pass through the body of the `while` loop leaves in the trace when
upstream delivered `x.1` and the forwarding `send` returned `x.2`. -/
def chunkEvents (cfd sfd : Int) (x : List Byte × Int) : List Event :=
  [.recv .upstream sfd recvLen x.1.length x.1, .coutLen "  *<- " x.1.length,
   .send .client cfd x.1 x.1.length x.2, .coutLen "<-*   " x.1.length]

/-! ### Iterations of the relay loop inside a trace -/

/-- The event is a completed `accept`. -/
def Event.isAccept : Event → Bool
  | .accept _ _ => true
  | _ => false

/-- The part of a trace that belongs to the iteration its first event opens:
everything up to, and without, the next `accept`. -/
def firstIteration : List Event → List Event
  | [] => []
  | e :: es => e :: es.takeWhile (fun x => !x.isAccept)

/-! ### Sends and what they deliver -/

/-- The program counter of the `send` to the given peer: line 163 for upstream,
line 176 for the client. -/
def Pc.send (p : Peer) (lfd cfd sfd len : Int) : Pc :=
  match p with
  | .upstream => .sendServer lfd cfd sfd len
  | .client => .sendClient lfd cfd sfd len

/-- The descriptor a call site passes for the given peer. -/
def peerFd (p : Peer) (cfd sfd : Int) : Int :=
  match p with
  | .client => cfd
  | .upstream => sfd

/-- The bytes a `send` transferred: as many of the bytes it was given as its
return value says. -/
def Event.delivered : Event → List Byte
  | .send _ _ bytes _ ret => bytes.take ret.toNat
  | _ => []

/-- The bytes a `recv` stored in the buffer. -/
def Event.received : Event → List Byte
  | .recv _ _ _ _ data => data
  | _ => []

/-- Program counters from the response phase on: the `while` loop, the end of
the iteration, and `main` having returned. -/
def Pc.pastRequest : Pc → Bool
  | .recvServer _ _ _ => true
  | .sendClient _ _ _ _ => true
  | .accept _ => true
  | .exited _ => true
  | _ => false

/-! ### Properties of every event together with what precedes it -/

/-- Every event of the trace, taken with the events before it, satisfies `G`. -/
def EachAfter (G : List Event → Event → Prop) (tr : List Event) : Prop :=
  ∀ pre e post, tr = pre ++ e :: post → G pre e

/-- If the event is a `recv`, it returned at most the length it was given. -/
def Event.recvOk : Event → Prop
  | .recv _ _ maxLen ret _ => ret ≤ (maxLen : Int)
  | _ => True

/-- What holds of a `recv` and of a `send` in view of the events before it:
a `recv` is given 4095; a `send` comes right after the `recv` (and its log
line) whose return value is the `send`'s length, and carries what that `recv`
stored whenever the `recv` stored as many bytes as it returned. -/
def bufferUse (pre : List Event) : Event → Prop
  | .recv _ _ maxLen _ _ => maxLen = 4095
  | .send _ _ bytes len _ =>
    0 ≤ len ∧ ∃ pre' q fd arrow d,
      pre = pre' ++ [Event.recv q fd 4095 len d, Event.coutLen arrow len] ∧
      (d.length = len.toNat → bytes = d)
  | _ => True

/-- What the events so far say about a `send` that `main` is waiting in. -/
def pendingSend (s : State) : Prop :=
  ∀ p lfd cfd sfd len, s.pc = Pc.send p lfd cfd sfd len →
    0 ≤ len ∧ ∃ pre' q fd arrow d,
      s.trace = pre' ++ [Event.recv q fd 4095 len d, Event.coutLen arrow len] ∧
      (d.length = len.toNat → sendArg s.buffer len = d)

/-- The event is neither a `recv` nor a `send`. -/
def Event.plain : Event → Bool
  | .recv _ _ _ _ _ => false
  | .send _ _ _ _ _ => false
  | _ => true

instance Event.recvOk.decidable (e : Event) : Decidable e.recvOk := by
  cases e <;> unfold Event.recvOk <;> infer_instance

/-! ### Milestones of an iteration -/

/-- The events that make up the skeleton of an iteration. -/
inductive Key where
  | accepted (lfd cfd : Int)
  | connect (sfd ret : Int)
  | clientRecv (cfd : Int)
  | upstreamSend (sfd : Int)
  | upstreamEof (sfd : Int)
  | closed (fd : Int)
deriving DecidableEq, Repr

/-- The milestone an event stands for, if any: every `accept`, every `connect`
with its result, every client `recv`, every upstream `send`, the upstream `recv`
that returned `0`, every `close`. -/
def key : Event → Option Key
  | .accept lfd ret => some (.accepted lfd ret)
  | .connect fd ret => some (.connect fd ret)
  | .recv .client fd _ _ _ => some (.clientRecv fd)
  | .recv .upstream fd _ ret _ => if ret = 0 then some (.upstreamEof fd) else none
  | .send .upstream fd _ _ _ => some (.upstreamSend fd)
  | .close fd => some (.closed fd)
  | _ => none

/-- Follow the milestones of the iteration in progress: an `accept` starts
afresh, any other event adds its milestone once an iteration has started. -/
def track (acc : Option (List Key)) (e : Event) : Option (List Key) :=
  match e with
  | .accept lfd ret => some [.accepted lfd ret]
  | e => acc.map (fun ks => ks ++ (key e).toList)

/-- The milestones since the last `accept` of the trace, that `accept`
included; `none` before the first `accept`. -/
def curKeys (tr : List Event) : Option (List Key) :=
  tr.foldl track none

/-- The milestones of one complete request/response cycle. -/
def cycle (lfd cfd sfd : Int) : List Key :=
  [.accepted lfd cfd, .connect sfd 0, .clientRecv cfd, .upstreamSend sfd, .upstreamEof sfd,
   .closed sfd]

/-- An `accept` comes first of all, or after a complete cycle. -/
def serial (pre : List Event) (e : Event) : Prop :=
  e.isAccept = true →
    curKeys pre = none ∨ ∃ lfd cfd sfd, curKeys pre = some (cycle lfd cfd sfd)

/-- How far the iteration in progress has come, by program counter. -/
def stage (s : State) : Prop :=
  match s.pc with
  | .gaiEndpoints => curKeys s.trace = none
  | .socketEndpoint => curKeys s.trace = none
  | .bind _ => curKeys s.trace = none
  | .listen _ => curKeys s.trace = none
  | .accept lfd =>
    curKeys s.trace = none ∨ ∃ cfd sfd, curKeys s.trace = some (cycle lfd cfd sfd)
  | .gaiServer lfd cfd => curKeys s.trace = some [.accepted lfd cfd]
  | .socketServer lfd cfd => curKeys s.trace = some [.accepted lfd cfd]
  | .connect lfd cfd sfd => 0 ≤ sfd ∧ curKeys s.trace = some [.accepted lfd cfd]
  | .recvClient lfd cfd sfd =>
    0 ≤ sfd ∧ curKeys s.trace = some [.accepted lfd cfd, .connect sfd 0]
  | .sendServer lfd cfd sfd _ =>
    0 ≤ sfd ∧ curKeys s.trace = some [.accepted lfd cfd, .connect sfd 0, .clientRecv cfd]
  | .recvServer lfd cfd sfd =>
    0 ≤ sfd ∧ curKeys s.trace =
      some [.accepted lfd cfd, .connect sfd 0, .clientRecv cfd, .upstreamSend sfd]
  | .sendClient lfd cfd sfd _ =>
    0 ≤ sfd ∧ curKeys s.trace =
      some [.accepted lfd cfd, .connect sfd 0, .clientRecv cfd, .upstreamSend sfd]
  | .exited _ => True

/-! ### Descriptors -/

/-- The event is a `close`. -/
def Event.isClose : Event → Bool
  | .close _ => true
  | _ => false

/-- The client descriptors that are open after a trace: those a successful
`accept` returned and no `close` was applied to since. -/
def openClients (tr : List Event) : List Int :=
  tr.foldl (fun acc e =>
    match e with
    | .accept _ ret => if ret = -1 then acc else acc ++ [ret]
    | .close fd => acc.erase fd
    | _ => acc) []

/-- Results of a start-up that succeeds, the listening socket being descriptor 3. -/
def setupScript : List Resp :=
  [Resp.int 0, Resp.int 3, Resp.int 0, Resp.int 0]

/-- Results of one iteration in which the client, descriptor `cfd`, sends "ping"
and upstream, descriptor `sfd`, answers "ping" twice and closes. -/
def pingScript (cfd sfd : Int) : List Resp :=
  [Resp.int cfd, Resp.int 0, Resp.int sfd, Resp.int 0,
   Resp.chunk [112, 105, 110, 103], Resp.int 4,
   Resp.chunk [112, 105, 110, 103], Resp.int 4,
   Resp.chunk [112, 105, 110, 103], Resp.int 4,
   Resp.int 0]

/-! ## Theorems -/

theorem run_nil (s : State) : run s [] = s := rfl

theorem run_cons (s : State) (r : Resp) (rs : List Resp) :
    run s (r :: rs) = run (step s r) rs := rfl

theorem run_append (s : State) (a b : List Resp) :
    run s (a ++ b) = run (run s a) b := by
  simp [run, List.foldl_append]

theorem run_snoc (s : State) (a : List Resp) (r : Resp) :
    run s (a ++ [r]) = step (run s a) r := by
  simp [run, List.foldl_append]

theorem step_of_exited (s : State) (r : Resp) (h : s.pc.isExited = true) : step s r = s := by
  cases s with
  | mk pc buf tr =>
    cases pc <;> simp_all [step, Pc.isExited]

theorem run_of_exited (s : State) (script : List Resp) (h : s.pc.isExited = true) :
    run s script = s := by
  induction script with
  | nil => rfl
  | cons r rs ih => rw [run_cons, step_of_exited s r h, ih]

/-- A single step returns from `main` exactly when the pending call failed, and
then with status `1`. -/
theorem step_exited_iff (s : State) (r : Resp) (code : Int) (h : s.pc.isExited = false) :
    (step s r).pc = .exited code ↔ code = 1 ∧ callFails s.pc r = true := by
  cases s with
  | mk pc buf tr =>
    cases pc <;> simp [Pc.isExited] at h <;>
      simp only [step, callFails, State.exit, State.goto] <;>
      split_ifs <;> simp_all <;> omega

theorem run_exited_iff (s : State) (script : List Resp) (code : Int)
    (h : s.pc.isExited = false) :
    (run s script).pc = .exited code ↔
      code = 1 ∧ ∃ pre r post, script = pre ++ r :: post ∧ callFails (run s pre).pc r = true := by
  induction script using List.reverseRecOn with
  | nil =>
    constructor
    · intro hx
      rw [run_nil] at hx
      rw [hx] at h
      simp [Pc.isExited] at h
    · rintro ⟨_, pre, r, post, hs, _⟩
      simp at hs
  | append_singleton init r ih =>
    rw [run_snoc]
    by_cases hx : (run s init).pc.isExited = true
    · rw [step_of_exited _ r hx, ih]
      constructor
      · rintro ⟨hc, pre, r', post, hs, hf⟩
        exact ⟨hc, pre, r', post ++ [r], by simp [hs], hf⟩
      · rintro ⟨hc, pre, r', post, hs, hf⟩
        refine ⟨hc, ?_⟩
        rcases List.eq_nil_or_concat post with hp | ⟨post', r'', hp⟩
        · subst hp
          have h1 : init = pre ∧ r = r' := by
            have := List.append_inj' (by simpa using hs : init ++ [r] = pre ++ [r']) rfl
            exact ⟨this.1, by simpa using this.2⟩
          obtain ⟨h1, h2⟩ := h1
          subst h1 h2
          cases hpc : (run s init).pc <;> simp [hpc, Pc.isExited, callFails] at hx hf
        · subst hp
          have h1 : init = pre ++ r' :: post' := by
            have := List.append_inj' (by simpa using hs : init ++ [r] = (pre ++ r' :: post') ++ [r'']) rfl
            exact this.1
          exact ⟨pre, r', post', h1, hf⟩
    · have hx' : (run s init).pc.isExited = false := by simpa using hx
      rw [step_exited_iff _ _ _ hx']
      constructor
      · rintro ⟨hc, hf⟩
        exact ⟨hc, init, r, [], rfl, hf⟩
      · rintro ⟨hc, pre, r', post, hs, hf⟩
        refine ⟨hc, ?_⟩
        rcases List.eq_nil_or_concat post with hp | ⟨post', r'', hp⟩
        · subst hp
          have := List.append_inj' (by simpa using hs : init ++ [r] = pre ++ [r']) rfl
          obtain ⟨h1, h2⟩ := this
          simp at h2
          subst h1 h2
          exact hf
        · subst hp
          have h1 : init = pre ++ r' :: post' := by
            have := List.append_inj' (by simpa using hs : init ++ [r] = (pre ++ r' :: post') ++ [r'']) rfl
            exact this.1
          exfalso
          subst h1
          have hne : (run s pre).pc.isExited = false := by
            cases hpc : (run s pre).pc <;> simp [hpc, Pc.isExited, callFails] at hf ⊢
          have h2 := (step_exited_iff (run s pre) r' 1 hne).2 ⟨rfl, hf⟩
          have h3 : (run s (pre ++ r' :: post')).pc = .exited 1 := by
            rw [run_append, run_cons, run_of_exited _ _ (by rw [h2]; rfl), h2]
          rw [h3] at hx'
          simp [Pc.isExited] at hx'

/-- C4: `main` never returns `0`; it returns at all only with status `1`, and it
does so exactly when some system call of the run failed: the script splits into
a prefix, after which `main` waits in a call, and a result for that call that
is a failure (`callFails`).  As long as no call fails, `main` is still running. -/
theorem main_exit_status (buffer : List Byte) (script : List Resp) :
    (∀ code, (run (start buffer) script).pc = .exited code → code = 1) ∧
    (run (start buffer) script).pc ≠ .exited 0 ∧
    ((run (start buffer) script).pc = .exited 1 ↔
      ∃ pre r post, script = pre ++ r :: post ∧
        callFails (run (start buffer) pre).pc r = true) ∧
    ((∀ pre r post, script = pre ++ r :: post →
        callFails (run (start buffer) pre).pc r = false) →
      (run (start buffer) script).pc.isExited = false) := by
  have key := fun code => run_exited_iff (start buffer) script code rfl
  refine ⟨fun code hc => ((key code).1 hc).1, ?_, ?_, ?_⟩
  · intro h0
    have := ((key 0).1 h0).1
    omega
  · rw [key 1]
    simp
  · intro hno
    cases hpc : (run (start buffer) script).pc <;> simp [Pc.isExited]
    rename_i code
    obtain ⟨_, pre, r, post, hs, hf⟩ := (key code).1 hpc
    rw [hno pre r post hs] at hf
    simp at hf

/-! ### Response forwarding -/

theorem sendArg_recvInto_chunk (buffer c : List Byte) (h : c.length ≤ recvLen) :
    sendArg (recvInto buffer recvLen (Resp.chunk c)) (c.length : Int) = c := by
  simp [sendArg, recvInto, Resp.chunk, List.take_of_length_le h]

/-- The `while` loop forwards a list of chunks one by one and is back at its
condition afterwards. -/
theorem run_responseScript (lfd cfd sfd : Int) (xs : List (List Byte × Int))
    (hlen : ∀ x ∈ xs, 0 < x.1.length ∧ x.1.length ≤ recvLen) (hsend : ∀ x ∈ xs, 0 ≤ x.2)
    (buffer : List Byte) (tr : List Event) (rest : List Resp) :
    ∃ buffer', run ⟨.recvServer lfd cfd sfd, buffer, tr⟩ (responseScript xs ++ rest) =
      run ⟨.recvServer lfd cfd sfd, buffer', tr ++ xs.flatMap (chunkEvents cfd sfd)⟩ rest := by
  induction xs generalizing buffer tr with
  | nil => exact ⟨buffer, by simp [responseScript]⟩
  | cons x xs ih =>
    have hx := hlen x (List.mem_cons_self _ _)
    have hs := hsend x (List.mem_cons_self _ _)
    obtain ⟨b', hb'⟩ := ih (fun y hy => hlen y (List.mem_cons_of_mem _ hy))
      (fun y hy => hsend y (List.mem_cons_of_mem _ hy))
      (recvInto buffer recvLen (Resp.chunk x.1))
      (tr ++ chunkEvents cfd sfd x)
    refine ⟨b', ?_⟩
    rw [List.flatMap_cons, ← List.append_assoc, ← hb']
    have h1 : (0 : Int) < (x.1.length : Int) := by exact_mod_cast hx.1
    have h2 : ¬ (x.2 < 0) := by omega
    have h3 := sendArg_recvInto_chunk buffer x.1 hx.2
    have h4 : List.take recvLen x.1 = x.1 := List.take_of_length_le hx.2
    simp only [responseScript, List.cons_append, run_cons]
    congr 1
    simp [step, State.goto, Resp.chunk, Resp.int, chunkEvents, h1, h2, h4]
    simpa [Resp.chunk] using h3

theorem recvLen_eq : recvLen = 4095 := rfl

theorem filter_isSendTo_chunks (cfd sfd : Int) (xs : List (List Byte × Int)) :
    (xs.flatMap (chunkEvents cfd sfd)).filter (Event.isSendTo .client) =
      xs.map (fun x => Event.send .client cfd x.1 x.1.length x.2) := by
  induction xs with
  | nil => rfl
  | cons x xs ih =>
    simp only [List.flatMap_cons, List.filter_append, ih, List.map_cons]
    simp [chunkEvents, Event.isSendTo, List.filter]

theorem filter_isRecvFrom_chunks (cfd sfd : Int) (xs : List (List Byte × Int)) :
    (xs.flatMap (chunkEvents cfd sfd)).filter (Event.isRecvFrom .upstream) =
      xs.map (fun x => Event.recv .upstream sfd recvLen x.1.length x.1) := by
  induction xs with
  | nil => rfl
  | cons x xs ih =>
    simp only [List.flatMap_cons, List.filter_append, ih, List.map_cons]
    simp [chunkEvents, Event.isRecvFrom, List.filter]

theorem filter_isSendTo_dtor (p : Peer) (fd : Int) :
    (Socket.dtor fd).filter (Event.isSendTo p) = [] := by
  unfold Socket.dtor; split_ifs <;> simp [Event.isSendTo]

theorem filter_isRecvFrom_dtor (p : Peer) (fd : Int) :
    (Socket.dtor fd).filter (Event.isRecvFrom p) = [] := by
  unfold Socket.dtor; split_ifs <;> simp [Event.isRecvFrom]

/-- C1: an iteration is at the response step (`main` waits in the upstream
`recv`).  Upstream delivers `N` chunks, each of positive length at most 4095,
and then closes (`recv` returns `0`); every `send` to the client returns a
non-negative value.  Then the iteration ends (`main` waits in the next
`accept`), the sends to the client it performed are exactly `N`, the `i`-th one
carrying the bytes and the byte count of the `i`-th chunk, and its upstream
`recv` calls are the `N` that returned the chunks followed by the one that
returned `0`, which is the last. -/
theorem response_forwarding (s0 : State) (lfd cfd sfd : Int) (xs : List (List Byte × Int))
    (hpc : s0.pc = .recvServer lfd cfd sfd)
    (hlen : ∀ x ∈ xs, 0 < x.1.length ∧ x.1.length ≤ 4095)
    (hsend : ∀ x ∈ xs, 0 ≤ x.2) :
    ∃ evs, (run s0 (responseScript xs ++ [Resp.int 0])).trace = s0.trace ++ evs ∧
      (run s0 (responseScript xs ++ [Resp.int 0])).pc = .accept lfd ∧
      evs.filter (Event.isSendTo .client) =
        xs.map (fun x => Event.send .client cfd x.1 x.1.length x.2) ∧
      (evs.filter (Event.isSendTo .client)).length = xs.length ∧
      evs.filter (Event.isRecvFrom .upstream) =
        xs.map (fun x => Event.recv .upstream sfd 4095 x.1.length x.1) ++
          [Event.recv .upstream sfd 4095 0 []] := by
  cases s0 with
  | mk pc buffer tr =>
    simp only at hpc
    subst hpc
    obtain ⟨b', hb'⟩ := run_responseScript lfd cfd sfd xs hlen hsend buffer tr [Resp.int 0]
    refine ⟨xs.flatMap (chunkEvents cfd sfd) ++
      ([Event.recv .upstream sfd recvLen 0 []] ++ Socket.dtor sfd), ?_, ?_, ?_, ?_, ?_⟩
    · rw [hb']
      simp [run, step, State.goto, Resp.int]
    · rw [hb']
      simp [run, step, State.goto, Resp.int]
    · simp [List.filter_append, filter_isSendTo_chunks, filter_isSendTo_dtor, Event.isSendTo]
    · simp [List.filter_append, filter_isSendTo_chunks, filter_isSendTo_dtor, Event.isSendTo]
    · simp [List.filter_append, filter_isRecvFrom_chunks, filter_isRecvFrom_dtor,
        Event.isRecvFrom, recvLen_eq]

/-- C1 at the scenario of the spec: upstream sends "ping" twice and closes. -/
theorem response_forwarding_witness :
    ∃ evs, (run ⟨.recvServer 3 4 5, [], []⟩
        (responseScript [([112, 105, 110, 103], 4), ([112, 105, 110, 103], 4)] ++
          [Resp.int 0])).trace = [] ++ evs ∧
      (run ⟨.recvServer 3 4 5, [], []⟩
        (responseScript [([112, 105, 110, 103], 4), ([112, 105, 110, 103], 4)] ++
          [Resp.int 0])).pc = .accept 3 ∧
      evs.filter (Event.isSendTo .client) =
        [Event.send .client 4 [112, 105, 110, 103] 4 4,
         Event.send .client 4 [112, 105, 110, 103] 4 4] ∧
      (evs.filter (Event.isSendTo .client)).length = 2 ∧
      evs.filter (Event.isRecvFrom .upstream) =
        [Event.recv .upstream 5 4095 4 [112, 105, 110, 103],
         Event.recv .upstream 5 4095 4 [112, 105, 110, 103],
         Event.recv .upstream 5 4095 0 []] :=
  response_forwarding ⟨.recvServer 3 4 5, [], []⟩ 3 4 5
    [([112, 105, 110, 103], 4), ([112, 105, 110, 103], 4)] rfl (by decide) (by decide)

/-! ### The trace only grows, and `main` does not read it -/

theorem step_trace (pc : Pc) (buffer : List Byte) (tr : List Event) (r : Resp) :
    step ⟨pc, buffer, tr⟩ r =
      ⟨(step ⟨pc, buffer, []⟩ r).pc, (step ⟨pc, buffer, []⟩ r).buffer,
        tr ++ (step ⟨pc, buffer, []⟩ r).trace⟩ := by
  cases pc <;> simp only [step, State.exit, State.goto] <;> (try split_ifs) <;> simp

theorem run_trace (pc : Pc) (buffer : List Byte) (tr : List Event) (script : List Resp) :
    run ⟨pc, buffer, tr⟩ script =
      ⟨(run ⟨pc, buffer, []⟩ script).pc, (run ⟨pc, buffer, []⟩ script).buffer,
        tr ++ (run ⟨pc, buffer, []⟩ script).trace⟩ := by
  induction script generalizing pc buffer tr with
  | nil => simp [run]
  | cons r rs ih =>
    rw [run_cons, run_cons, step_trace, ih]
    conv_rhs => rw [ih]
    simp

/-- C7 as stated fails: the client `recv` returns `0`, the `send` of length `0`
to upstream is issued and returns `-1`; `main` returns `1` and never issues a
`recv` on the upstream connection. -/
theorem zero_byte_request_send_fails :
    (run (start []) [Resp.int 0, Resp.int 3, Resp.int 0, Resp.int 0, Resp.int 4, Resp.int 0,
        Resp.int 5, Resp.int 0, Resp.chunk [], Resp.int (-1)]).pc = .exited 1 ∧
    (run (start []) [Resp.int 0, Resp.int 3, Resp.int 0, Resp.int 0, Resp.int 4, Resp.int 0,
        Resp.int 5, Resp.int 0, Resp.chunk [], Resp.int (-1)]).trace.filter
      (Event.isRecvFrom .upstream) = [] ∧
    (run (start []) [Resp.int 0, Resp.int 3, Resp.int 0, Resp.int 0, Resp.int 4, Resp.int 0,
        Resp.int 5, Resp.int 0, Resp.chunk [], Resp.int (-1)]).trace.filter
      (Event.isSendTo .upstream) = [Event.send .upstream 5 [] 0 (-1)] := by
  decide

/-- C7 as amended: when the single client `recv` returns `0`, `main` does not
return on that account but waits in one `send` to upstream of length `0`
carrying no bytes; whenever that `send` does not return a negative value,
`main` goes on to wait in the upstream `recv`, having performed exactly that one
upstream `send`. -/
theorem zero_byte_request (s0 : State) (lfd cfd sfd : Int) (r sendRes : Resp)
    (hpc : s0.pc = .recvClient lfd cfd sfd) (hr : r.ret = 0) (hs : 0 ≤ sendRes.ret) :
    (step s0 r).pc = .sendServer lfd cfd sfd 0 ∧
    (run s0 [r, sendRes]).pc = .recvServer lfd cfd sfd ∧
    ∃ d, (run s0 [r, sendRes]).trace = s0.trace ++
      [Event.recv .client cfd 4095 0 d, Event.coutLen "->*   " 0,
       Event.send .upstream sfd [] 0 sendRes.ret, Event.coutLen "  *-> " 0] := by
  cases s0 with
  | mk pc buffer tr =>
    simp only at hpc
    subst hpc
    have h2 : ¬ (sendRes.ret < 0) := by omega
    refine ⟨by simp [step, State.goto, hr], by simp [run, step, State.goto, hr, h2], ?_⟩
    exact ⟨r.data.take recvLen, by simp [run, step, State.goto, hr, h2, sendArg, recvLen_eq]⟩

/-- C7 as amended, at a client that closes without sending and an upstream that
accepts the empty `send`. -/
theorem zero_byte_request_witness :
    (step ⟨.recvClient 3 4 5, [], []⟩ (Resp.chunk [])).pc = .sendServer 3 4 5 0 ∧
    (run ⟨.recvClient 3 4 5, [], []⟩ [Resp.chunk [], Resp.int 0]).pc = .recvServer 3 4 5 ∧
    ∃ d, (run ⟨.recvClient 3 4 5, [], []⟩ [Resp.chunk [], Resp.int 0]).trace = [] ++
      [Event.recv .client 4 4095 0 d, Event.coutLen "->*   " 0,
       Event.send .upstream 5 [] 0 (Resp.int 0).ret, Event.coutLen "  *-> " 0] :=
  zero_byte_request ⟨.recvClient 3 4 5, [], []⟩ 3 4 5 (Resp.chunk []) (Resp.int 0) rfl rfl
    (by decide)

/-! ### Partial sends -/

theorem flatMap_take_length_le (xs : List (List Byte × Int)) :
    (xs.flatMap (fun x => x.1.take x.2.toNat)).length ≤ (xs.flatMap (fun x => x.1)).length := by
  induction xs with
  | nil => simp
  | cons x xs ih =>
    simp only [List.flatMap_cons, List.length_append, List.length_take]
    omega

/-- Truncating every chunk to what its `send` reported loses nothing exactly
when every `send` reported the whole chunk. -/
theorem flatMap_take_eq_iff (xs : List (List Byte × Int)) :
    xs.flatMap (fun x => x.1.take x.2.toNat) = xs.flatMap (fun x => x.1) ↔
      ∀ x ∈ xs, x.1.length ≤ x.2.toNat := by
  induction xs with
  | nil => simp
  | cons x xs ih =>
    simp only [List.flatMap_cons, List.mem_cons, forall_eq_or_imp]
    constructor
    · intro h
      have hl := congrArg List.length h
      have h0 := flatMap_take_length_le xs
      simp only [List.length_append, List.length_take] at hl
      have h1 : (List.take x.2.toNat x.1).length = x.1.length := by
        simp only [List.length_take]; omega
      obtain ⟨h2, h3⟩ := List.append_inj h h1
      refine ⟨?_, ih.1 h3⟩
      simp only [List.length_take] at h1
      omega
    · rintro ⟨h1, h2⟩
      rw [ih.2 h2, List.take_of_length_le (by omega)]

theorem chunks_delivered (cfd sfd : Int) (xs : List (List Byte × Int)) :
    ((xs.flatMap (chunkEvents cfd sfd)).filter (Event.isSendTo .client)).flatMap Event.delivered =
      xs.flatMap (fun x => x.1.take x.2.toNat) := by
  rw [filter_isSendTo_chunks]
  induction xs with
  | nil => rfl
  | cons x xs ih => simp [Event.delivered, ih]

theorem step_send (p : Peer) (lfd cfd sfd n : Int) (buffer : List Byte) (tr : List Event)
    (r : Resp) (h : 0 ≤ r.ret) :
    ∃ arrow, step ⟨Pc.send p lfd cfd sfd n, buffer, tr⟩ r =
      ⟨.recvServer lfd cfd sfd, buffer,
        tr ++ [Event.send p (peerFd p cfd sfd) (sendArg buffer n) n r.ret,
               Event.coutLen arrow n]⟩ := by
  have h2 : ¬ (r.ret < 0) := by omega
  cases p
  · exact ⟨"<-*   ", by simp [Pc.send, peerFd, step, State.goto, h2]⟩
  · exact ⟨"  *-> ", by simp [Pc.send, peerFd, step, State.goto, h2]⟩

theorem chunks_received_recv (cfd sfd : Int) (xs : List (List Byte × Int)) :
    ((xs.flatMap (chunkEvents cfd sfd)).filter (Event.isRecvFrom .upstream)).flatMap
      Event.received = xs.flatMap (fun x => x.1) := by
  rw [filter_isRecvFrom_chunks]
  induction xs with
  | nil => rfl
  | cons x xs ih => simp [Event.received, ih]

/-- C9: `main` waits in a `send` (to upstream or to the client) of `n` bytes and
the call returns `r`.
* The `send` makes `main` return, with status `1`, exactly when `r` is negative.
* For every `r ≥ 0`, so also for a short count `r < n`, `main` goes on to wait in
  the upstream `recv` with the buffer untouched, the trace has grown by this one
  `send` and its log line, and everything `main` does afterwards is the same as
  after any other non-negative result: the remainder is never sent.
* The bytes this `send` transferred are the bytes it was given exactly when the
  result covers them all; and over a whole response phase the bytes delivered
  to the client are the bytes received from upstream exactly when every `send`
  returned the full length of its chunk. -/
theorem partial_send_not_redriven (s0 : State) (p : Peer) (lfd cfd sfd n : Int) (r : Resp)
    (hpc : s0.pc = Pc.send p lfd cfd sfd n) :
    ((step s0 r).pc.isExited = true ↔ r.ret < 0) ∧
    ((step s0 r).pc = .exited 1 ↔ r.ret < 0) ∧
    (0 ≤ r.ret →
      (step s0 r).pc = .recvServer lfd cfd sfd ∧
      (step s0 r).buffer = s0.buffer ∧
      (∃ arrow, (step s0 r).trace = s0.trace ++
        [Event.send p (peerFd p cfd sfd) (sendArg s0.buffer n) n r.ret,
         Event.coutLen arrow n]) ∧
      ∀ (r' : Resp) (rest : List Resp), 0 ≤ r'.ret →
        ∃ evs, (run s0 (r :: rest)).trace = (step s0 r).trace ++ evs ∧
          (run s0 (r' :: rest)).trace = (step s0 r').trace ++ evs ∧
          (run s0 (r :: rest)).pc = (run s0 (r' :: rest)).pc) ∧
    ((Event.send p (peerFd p cfd sfd) (sendArg s0.buffer n) n r.ret).delivered =
        sendArg s0.buffer n ↔ (sendArg s0.buffer n).length ≤ r.ret.toNat) ∧
    (∀ (xs : List (List Byte × Int)) (buffer : List Byte),
      (∀ x ∈ xs, 0 < x.1.length ∧ x.1.length ≤ 4095) → (∀ x ∈ xs, 0 ≤ x.2) →
      (((run ⟨.recvServer lfd cfd sfd, buffer, []⟩ (responseScript xs)).trace.filter
          (Event.isSendTo .client)).flatMap Event.delivered =
        ((run ⟨.recvServer lfd cfd sfd, buffer, []⟩ (responseScript xs)).trace.filter
          (Event.isRecvFrom .upstream)).flatMap Event.received ↔
        ∀ x ∈ xs, (x.1.length : Int) ≤ x.2)) := by
  cases s0 with
  | mk pc buffer tr =>
    simp only at hpc
    subst hpc
    have hiff : (step ⟨Pc.send p lfd cfd sfd n, buffer, tr⟩ r).pc = .exited 1 ↔ r.ret < 0 := by
      rw [step_exited_iff _ _ _ (by cases p <;> rfl)]
      cases p <;> simp [Pc.send, callFails]
    refine ⟨?_, hiff, ?_, ?_, ?_⟩
    · constructor
      · intro hx
        by_contra hneg
        obtain ⟨_, ha⟩ := step_send p lfd cfd sfd n buffer tr r (by omega)
        rw [ha] at hx
        simp [Pc.isExited] at hx
      · intro hneg
        rw [hiff.2 hneg]
        rfl
    · intro hr
      obtain ⟨a, ha⟩ := step_send p lfd cfd sfd n buffer tr r hr
      refine ⟨by rw [ha], by rw [ha], ⟨a, by rw [ha]⟩, ?_⟩
      intro r' rest hr'
      obtain ⟨a', ha'⟩ := step_send p lfd cfd sfd n buffer tr r' hr'
      refine ⟨(run ⟨.recvServer lfd cfd sfd, buffer, []⟩ rest).trace, ?_, ?_, ?_⟩
      · rw [run_cons, ha, run_trace]
      · rw [run_cons, ha', run_trace]
      · rw [run_cons, run_cons, ha, ha', run_trace]
        conv_rhs => rw [run_trace]
    · simp only [Event.delivered]
      constructor
      · intro h
        have := congrArg List.length h
        simp only [List.length_take] at this
        omega
      · intro h
        exact List.take_of_length_le h
    · intro xs buffer' hlen hsend
      obtain ⟨b', hb'⟩ := run_responseScript lfd cfd sfd xs hlen hsend buffer' [] []
      simp only [List.append_nil, run_nil, List.nil_append] at hb'
      rw [hb']
      simp only
      rw [chunks_delivered, chunks_received_recv, flatMap_take_eq_iff]
      constructor
      · intro h x hx
        have := h x hx
        have := hsend x hx
        omega
      · intro h x hx
        have := h x hx
        omega

/-- C9 at a `send` of the four bytes "ping" to the client that reports only two
of them. -/
theorem partial_send_not_redriven_witness :
    (step ⟨.sendClient 3 4 5 4, [112, 105, 110, 103], []⟩ (Resp.int 2)).pc = .recvServer 3 4 5 ∧
    (Event.send .client 4 [112, 105, 110, 103] 4 2).delivered = [112, 105] :=
  ⟨((partial_send_not_redriven ⟨.sendClient 3 4 5 4, [112, 105, 110, 103], []⟩ .client 3 4 5 4
      (Resp.int 2) rfl).2.2.1 (by decide)).1, by decide⟩

/-! ### Request forwarding -/

theorem mem_takeWhile_append {α : Type} (p : α → Bool) (a b : List α) (e : α)
    (h : e ∈ (a ++ b).takeWhile p) : e ∈ a ∨ e ∈ b.takeWhile p := by
  induction a with
  | nil => exact Or.inr (by simpa using h)
  | cons x xs ih =>
    simp only [List.cons_append, List.takeWhile_cons] at h
    split_ifs at h with hp
    · rcases List.mem_cons.1 h with h1 | h1
      · exact Or.inl (by simp [h1])
      · rcases ih h1 with h2 | h2
        · exact Or.inl (List.mem_cons_of_mem _ h2)
        · exact Or.inr h2
    · simp at h

/-- From the response phase on, one step either starts the next iteration with
an `accept`, or stays in the response phase and adds neither an `accept`, nor a
client `recv`, nor an upstream `send`. -/
theorem step_pastRequest (pc : Pc) (buffer : List Byte) (r : Resp) (h : pc.pastRequest = true) :
    (∃ lfd ret rest, (step ⟨pc, buffer, []⟩ r).trace = Event.accept lfd ret :: rest) ∨
    ((step ⟨pc, buffer, []⟩ r).pc.pastRequest = true ∧
      (step ⟨pc, buffer, []⟩ r).trace.all
        (fun e => !e.isAccept && !e.isRecvFrom .client && !e.isSendTo .upstream) = true) := by
  cases pc <;> simp [Pc.pastRequest] at h
  case accept lfd =>
    simp only [step, State.exit, State.goto]
    split_ifs
    · exact Or.inl ⟨lfd, r.ret, _, rfl⟩
    · exact Or.inl ⟨lfd, r.ret, _, rfl⟩
  all_goals
    right
    simp only [step, State.exit, State.goto, Socket.dtor]
    (try split_ifs) <;>
    simp [Pc.pastRequest, Event.isRecvFrom, Event.isSendTo, Event.isAccept]

/-- From the response phase on, what is left of the current iteration contains
neither a client `recv` nor an upstream `send`. -/
theorem rest_of_iteration_quiet (script : List Resp) (pc : Pc) (buffer : List Byte)
    (h : pc.pastRequest = true) :
    ∀ e ∈ (run ⟨pc, buffer, []⟩ script).trace.takeWhile (fun x => !x.isAccept),
      e.isRecvFrom .client = false ∧ e.isSendTo .upstream = false := by
  induction script generalizing pc buffer with
  | nil => simp [run]
  | cons r rs ih =>
    intro e he
    rw [run_cons, step_trace, run_trace] at he
    simp only [List.nil_append] at he
    rcases step_pastRequest pc buffer r h with ⟨lfd, ret, rest, hacc⟩ | ⟨hpc, hall⟩
    · rw [hacc] at he
      simp [Event.isAccept] at he
    · rcases mem_takeWhile_append _ _ _ _ he with h1 | h1
      · have := List.all_eq_true.1 hall e h1
        simp only [Bool.and_eq_true, Bool.not_eq_eq_eq_not, Bool.not_true] at this
        exact ⟨this.1.2, this.2⟩
      · exact ih _ _ hpc e h1

theorem filter_rest_of_iteration (script : List Resp) (pc : Pc) (buffer : List Byte)
    (h : pc.pastRequest = true) :
    ((run ⟨pc, buffer, []⟩ script).trace.takeWhile (fun x => !x.isAccept)).filter
        (Event.isRecvFrom .client) = [] ∧
    ((run ⟨pc, buffer, []⟩ script).trace.takeWhile (fun x => !x.isAccept)).filter
        (Event.isSendTo .upstream) = [] := by
  constructor <;> rw [List.filter_eq_nil_iff] <;> intro e he
  · simp [(rest_of_iteration_quiet script pc buffer h e he).1]
  · simp [(rest_of_iteration_quiet script pc buffer h e he).2]

/-- C2: an iteration in which `accept` and the upstream `connect` succeed (and
with them the address resolution and the socket creation in between).  Up to
the next `accept` the iteration performs exactly one `recv` on the client
connection, with length argument 4095.  When that `recv` returns `n ≥ 0` bytes,
the first `n` bytes of what the client sent, the iteration performs exactly one
`send` on the upstream connection, with length argument `n` and carrying those
`n` bytes; as `n ≤ 4095`, nothing beyond the first 4095 bytes of the payload is
forwarded.  When the `recv` fails there is no upstream `send`. -/
theorem request_forwarding (lfd : Int) (buffer : List Byte) (ra rg rs rc r sres : Resp)
    (rest : List Resp)
    (hacc : ra.ret ≠ -1) (hgai : rg.ret = 0) (hsock : 0 ≤ rs.ret) (hconn : rc.ret = 0) :
    (firstIteration (run ⟨.accept lfd, buffer, []⟩
        (ra :: rg :: rs :: rc :: r :: sres :: rest)).trace).filter (Event.isRecvFrom .client) =
      [Event.recv .client ra.ret 4095 r.ret (r.data.take 4095)] ∧
    (∀ (payload : List Byte) (n : Nat), n ≤ 4095 → n ≤ payload.length →
      r = ⟨n, payload.take n⟩ →
      (firstIteration (run ⟨.accept lfd, buffer, []⟩
          (ra :: rg :: rs :: rc :: r :: sres :: rest)).trace).filter (Event.isSendTo .upstream) =
        [Event.send .upstream rs.ret (payload.take n) n sres.ret] ∧
      (payload.take n).length ≤ 4095) ∧
    (r.ret < 0 →
      (firstIteration (run ⟨.accept lfd, buffer, []⟩
          (ra :: rg :: rs :: rc :: r :: sres :: rest)).trace).filter (Event.isSendTo .upstream) =
        []) := by
  have hs : ¬ (rs.ret < 0) := by omega
  have h4 : run ⟨.accept lfd, buffer, []⟩ (ra :: rg :: rs :: rc :: r :: sres :: rest) =
      run ⟨.recvClient lfd ra.ret rs.ret, buffer,
        [.accept lfd ra.ret, .cout "New connection from: ",
         .getaddrinfo SERVER_HOST SERVER_PORT 0, .socket rs.ret, .setsockopt rs.ret,
         .connect rs.ret 0, .cout "Connected to server.", .freeaddrinfo]⟩
        (r :: sres :: rest) := by
    simp [run_cons, step, State.goto, hacc, hgai, hs, hconn]
  rw [h4]
  by_cases hr : r.ret < 0
  · have h5 : ∀ tr, run ⟨.recvClient lfd ra.ret rs.ret, buffer, tr⟩ (r :: sres :: rest) =
        ⟨.exited 1, recvInto buffer recvLen r,
          tr ++ ([Event.recv .client ra.ret recvLen r.ret (r.data.take recvLen),
            .cerr "recv client failed."] ++ Socket.dtor rs.ret ++ Socket.dtor lfd)⟩ := by
      intro tr
      rw [run_cons, run_of_exited] <;> simp [step, State.exit, hr, Pc.isExited]
    rw [h5]
    refine ⟨?_, ?_, ?_⟩
    · simp only [Socket.dtor]
      split_ifs <;>
        simp [firstIteration, Event.isAccept, Event.isRecvFrom, recvLen_eq, List.filter]
    · intro payload n _ _ hrn
      rw [hrn] at hr
      simp only at hr
      omega
    · intro _
      simp only [Socket.dtor]
      split_ifs <;>
        simp [firstIteration, Event.isAccept, Event.isSendTo, List.filter]
  · by_cases hsr : sres.ret < 0
    · have h5 : ∀ tr, run ⟨.recvClient lfd ra.ret rs.ret, buffer, tr⟩ (r :: sres :: rest) =
          ⟨.exited 1, recvInto buffer recvLen r,
            tr ++ ([Event.recv .client ra.ret recvLen r.ret (r.data.take recvLen),
              .coutLen "->*   " r.ret,
              .send .upstream rs.ret (sendArg (recvInto buffer recvLen r) r.ret) r.ret sres.ret,
              .cerr "Send server failed."] ++ Socket.dtor rs.ret ++ Socket.dtor lfd)⟩ := by
        intro tr
        rw [run_cons, run_cons, run_of_exited] <;> simp [step, State.exit, State.goto, hr, hsr,
          Pc.isExited]
      rw [h5]
      refine ⟨?_, ?_, fun h => absurd h hr⟩
      · simp only [Socket.dtor]
        split_ifs <;>
          simp [firstIteration, Event.isAccept, Event.isRecvFrom, recvLen_eq, List.filter]
      · intro payload n hn hnp hrn
        have hb : sendArg (recvInto buffer recvLen r) r.ret = payload.take n := by
          have := sendArg_recvInto_chunk buffer (payload.take n)
            (by simp [recvLen_eq]; omega)
          simpa [hrn, Resp.chunk, Nat.min_eq_left hnp] using this
        rw [hb]
        refine ⟨?_, by simp; omega⟩
        simp only [Socket.dtor]
        split_ifs <;>
          simp [firstIteration, Event.isAccept, Event.isSendTo, List.filter, hrn]
    · have h5 : ∀ tr, run ⟨.recvClient lfd ra.ret rs.ret, buffer, tr⟩ (r :: sres :: rest) =
          run ⟨.recvServer lfd ra.ret rs.ret, recvInto buffer recvLen r,
            tr ++ [Event.recv .client ra.ret recvLen r.ret (r.data.take recvLen),
              .coutLen "->*   " r.ret,
              .send .upstream rs.ret (sendArg (recvInto buffer recvLen r) r.ret) r.ret sres.ret,
              .coutLen "  *-> " r.ret]⟩ rest := by
        intro tr
        rw [run_cons, run_cons]
        simp [step, State.goto, hr, hsr]
      rw [h5, run_trace]
      obtain ⟨q1, q2⟩ := filter_rest_of_iteration rest (.recvServer lfd ra.ret rs.ret)
        (recvInto buffer recvLen r) rfl
      refine ⟨?_, ?_, fun h => absurd h hr⟩
      · simp only [firstIteration, Event.isAccept, Event.isRecvFrom, recvLen_eq, List.filter,
          List.takeWhile, List.cons_append, List.nil_append, List.filter_eq_nil_iff] at q1 ⊢
        simpa using q1
      · intro payload n hn hnp hrn
        have hb : sendArg (recvInto buffer recvLen r) r.ret = payload.take n := by
          have := sendArg_recvInto_chunk buffer (payload.take n)
            (by simp [recvLen_eq]; omega)
          simpa [hrn, Resp.chunk, Nat.min_eq_left hnp] using this
        rw [hb]
        refine ⟨?_, by simp; omega⟩
        simp only [firstIteration, Event.isAccept, Event.isSendTo, List.filter,
          List.takeWhile, List.cons_append, List.nil_append, List.filter_eq_nil_iff] at q2 ⊢
        simpa [hrn] using q2

/-- C2 at a client that sends "ping": accept returns 4, the upstream socket is
5, the request is forwarded and upstream closes without answering. -/
theorem request_forwarding_witness :
    (firstIteration (run ⟨.accept 3, [], []⟩
        [Resp.int 4, Resp.int 0, Resp.int 5, Resp.int 0, Resp.chunk [112, 105, 110, 103],
         Resp.int 4, Resp.int 0]).trace).filter (Event.isRecvFrom .client) =
      [Event.recv .client 4 4095 4 [112, 105, 110, 103]] ∧
    (firstIteration (run ⟨.accept 3, [], []⟩
        [Resp.int 4, Resp.int 0, Resp.int 5, Resp.int 0, Resp.chunk [112, 105, 110, 103],
         Resp.int 4, Resp.int 0]).trace).filter (Event.isSendTo .upstream) =
      [Event.send .upstream 5 [112, 105, 110, 103] 4 4] :=
  ⟨(request_forwarding 3 [] (Resp.int 4) (Resp.int 0) (Resp.int 5) (Resp.int 0)
      (Resp.chunk [112, 105, 110, 103]) (Resp.int 4) [Resp.int 0]
      (by decide) rfl (by decide) rfl).1,
   ((request_forwarding 3 [] (Resp.int 4) (Resp.int 0) (Resp.int 5) (Resp.int 0)
      (Resp.chunk [112, 105, 110, 103]) (Resp.int 4) [Resp.int 0]
      (by decide) rfl (by decide) rfl).2.1 [112, 105, 110, 103] 4 (by decide) (by decide)
      rfl).1⟩

/-! ### Events and their prefixes -/

theorem eachAfter_nil (G : List Event → Event → Prop) : EachAfter G [] := by
  intro pre e post h
  simp at h

theorem eachAfter_cons (G : List Event → Event → Prop) (x : Event) (xs : List Event) :
    EachAfter G (x :: xs) ↔ G [] x ∧ EachAfter (fun pre e => G (x :: pre) e) xs := by
  constructor
  · intro h
    refine ⟨h [] x xs rfl, ?_⟩
    intro pre e post hs
    exact h (x :: pre) e post (by simp [hs])
  · rintro ⟨h0, h1⟩ pre e post hs
    cases pre with
    | nil =>
      simp only [List.nil_append, List.cons.injEq] at hs
      rw [← hs.1]
      exact h0
    | cons y ys =>
      simp only [List.cons_append, List.cons.injEq] at hs
      rw [← hs.1]
      exact h1 ys e post hs.2

theorem eachAfter_append (G : List Event → Event → Prop) (a b : List Event) :
    EachAfter G (a ++ b) ↔ EachAfter G a ∧ EachAfter (fun pre e => G (a ++ pre) e) b := by
  induction a generalizing G with
  | nil =>
    simp only [List.nil_append]
    exact ⟨fun h => ⟨eachAfter_nil G, h⟩, fun h => h.2⟩
  | cons x xs ih =>
    simp only [List.cons_append, eachAfter_cons, ih]
    tauto

/-! ### Buffer bounds -/

theorem sendArg_recvInto (buffer : List Byte) (r : Resp)
    (h : (r.data.take recvLen).length = r.ret.toNat) :
    sendArg (recvInto buffer recvLen r) r.ret = r.data.take recvLen := by
  unfold sendArg recvInto
  rw [← h]
  simp

theorem eachAfter_snoc (G : List Event → Event → Prop) (tr : List Event) (e : Event)
    (h : EachAfter G tr) (he : G tr e) : EachAfter G (tr ++ [e]) := by
  rw [eachAfter_append, eachAfter_cons]
  exact ⟨h, by simpa using he, eachAfter_nil _⟩

theorem eachAfter_append_of (G : List Event → Event → Prop) (tr evs : List Event)
    (h : EachAfter G tr) (hall : ∀ e ∈ evs, ∀ pre, G pre e) : EachAfter G (tr ++ evs) := by
  rw [eachAfter_append]
  refine ⟨h, ?_⟩
  intro pre e post hs
  exact hall e (by simp [hs]) _

theorem bufferUse_plain (e : Event) (h : e.plain = true) (pre : List Event) :
    bufferUse pre e := by
  cases e <;> simp_all [Event.plain, bufferUse]

theorem bufferUse_append_plain (tr evs : List Event) (h : EachAfter bufferUse tr)
    (hall : evs.all Event.plain = true) : EachAfter bufferUse (tr ++ evs) :=
  eachAfter_append_of _ _ _ h (fun e he pre => bufferUse_plain e (List.all_eq_true.1 hall e he) pre)

theorem bufferUse_append_io (tr : List Event) (e : Event) (evs : List Event)
    (h : EachAfter bufferUse tr) (he : bufferUse tr e) (hall : evs.all Event.plain = true) :
    EachAfter bufferUse (tr ++ e :: evs) := by
  have := bufferUse_append_plain (tr ++ [e]) evs (eachAfter_snoc _ _ _ h he) hall
  simpa using this

theorem pendingSend_of_not_send (s : State)
    (h : ∀ p lfd cfd sfd len, s.pc ≠ Pc.send p lfd cfd sfd len) : pendingSend s := by
  intro p lfd cfd sfd len hpc
  exact absurd hpc (h p lfd cfd sfd len)

theorem bufferUse_step (s : State) (r : Resp)
    (h1 : EachAfter bufferUse s.trace) (h2 : pendingSend s) :
    EachAfter bufferUse (step s r).trace ∧ pendingSend (step s r) := by
  cases s with
  | mk pc buffer tr =>
  simp only at h1
  cases pc
  case recvClient lfd cfd sfd =>
    simp only [step, State.exit, State.goto]
    split_ifs with hr
    · refine ⟨?_, pendingSend_of_not_send _ (by intro p; cases p <;> simp [Pc.send])⟩
      exact bufferUse_append_io _ _ _ h1 (by simp [bufferUse, recvLen_eq])
        (by simp only [Socket.dtor]; split_ifs <;> simp [Event.plain])
    · refine ⟨?_, ?_⟩
      · exact bufferUse_append_io _ _ _ h1 (by simp [bufferUse, recvLen_eq])
          (by simp [Event.plain])
      · intro p lfd' cfd' sfd' len hpc
        cases p <;> simp only [Pc.send, Pc.sendServer.injEq, reduceCtorEq] at hpc
        obtain ⟨_, _, _, hlen⟩ := hpc
        subst hlen
        refine ⟨by omega, tr, .client, cfd, "->*   ", r.data.take recvLen,
          by simp [recvLen_eq], ?_⟩
        intro hd
        exact sendArg_recvInto buffer r hd
  case recvServer lfd cfd sfd =>
    simp only [step, State.exit, State.goto]
    split_ifs with hr hr'
    · refine ⟨?_, ?_⟩
      · exact bufferUse_append_io _ _ _ h1 (by simp [bufferUse, recvLen_eq])
          (by simp [Event.plain])
      · intro p lfd' cfd' sfd' len hpc
        cases p <;> simp only [Pc.send, Pc.sendClient.injEq, reduceCtorEq] at hpc
        obtain ⟨_, _, _, hlen⟩ := hpc
        subst hlen
        refine ⟨by omega, tr, .upstream, sfd, "  *<- ", r.data.take recvLen,
          by simp [recvLen_eq], ?_⟩
        intro hd
        exact sendArg_recvInto buffer r hd
    · refine ⟨?_, pendingSend_of_not_send _ (by intro p; cases p <;> simp [Pc.send])⟩
      exact bufferUse_append_io _ _ _ h1 (by simp [bufferUse, recvLen_eq])
        (by simp only [Socket.dtor]; split_ifs <;> simp [Event.plain])
    · refine ⟨?_, pendingSend_of_not_send _ (by intro p; cases p <;> simp [Pc.send])⟩
      exact bufferUse_append_io _ _ _ h1 (by simp [bufferUse, recvLen_eq])
        (by simp only [Socket.dtor]; split_ifs <;> simp [Event.plain])
  case sendServer lfd cfd sfd len =>
    obtain ⟨hlen, pre', q, fd, arrow, d, htr, hd⟩ := h2 .upstream lfd cfd sfd len rfl
    simp only at htr hd
    have hb : bufferUse tr (Event.send .upstream sfd (sendArg buffer len) len r.ret) :=
      ⟨hlen, pre', q, fd, arrow, d, htr, hd⟩
    simp only [step, State.exit, State.goto]
    split_ifs with hr <;>
      refine ⟨?_, pendingSend_of_not_send _ (by intro p; cases p <;> simp [Pc.send])⟩
    · exact bufferUse_append_io _ _ _ h1 hb
        (by simp only [Socket.dtor]; split_ifs <;> simp [Event.plain])
    · exact bufferUse_append_io _ _ _ h1 hb (by simp [Event.plain])
  case sendClient lfd cfd sfd len =>
    obtain ⟨hlen, pre', q, fd, arrow, d, htr, hd⟩ := h2 .client lfd cfd sfd len rfl
    simp only at htr hd
    have hb : bufferUse tr (Event.send .client cfd (sendArg buffer len) len r.ret) :=
      ⟨hlen, pre', q, fd, arrow, d, htr, hd⟩
    simp only [step, State.exit, State.goto]
    split_ifs with hr <;>
      refine ⟨?_, pendingSend_of_not_send _ (by intro p; cases p <;> simp [Pc.send])⟩
    · exact bufferUse_append_io _ _ _ h1 hb
        (by simp only [Socket.dtor]; split_ifs <;> simp [Event.plain])
    · exact bufferUse_append_io _ _ _ h1 hb (by simp [Event.plain])
  case exited code =>
    exact ⟨by simpa [step] using h1, by simpa [step] using h2⟩
  all_goals
    simp only [step, State.exit, State.goto]
    split_ifs <;>
      refine ⟨?_, pendingSend_of_not_send _ (by intro p; cases p <;> simp [Pc.send])⟩ <;>
      exact bufferUse_append_plain _ _ h1
        (by (try simp only [Socket.dtor]); (try split_ifs) <;> simp [Event.plain])

theorem bufferUse_run (buffer : List Byte) (script : List Resp) :
    EachAfter bufferUse (run (start buffer) script).trace ∧
      pendingSend (run (start buffer) script) := by
  induction script using List.reverseRecOn with
  | nil =>
    exact ⟨eachAfter_nil _,
      pendingSend_of_not_send _ (by intro p; cases p <;> simp [Pc.send, run, start])⟩
  | append_singleton init r ih =>
    rw [run_snoc]
    exact bufferUse_step _ r ih.1 ih.2

/-- C10: the transfer buffer has 4096 bytes and every `recv` of every run is
given the length 4095.  When every `recv` of the run returned at most the length
it was given, every `send` of the run has a length argument between 0 and 4095,
and it comes immediately after the `recv` (only that `recv`'s log line in
between) whose return value is this length argument; the bytes it reads are
those this `recv` stored, given that the `recv` stored as many bytes as it
returned. -/
theorem buffer_bounds (buffer : List Byte) (script : List Resp)
    (hrecv : ∀ e ∈ (run (start buffer) script).trace, e.recvOk) :
    BUFFER_SIZE = 4096 ∧
    (∀ p fd maxLen ret data,
      Event.recv p fd maxLen ret data ∈ (run (start buffer) script).trace → maxLen = 4095) ∧
    (∀ pre p fd bytes len ret post,
      (run (start buffer) script).trace = pre ++ Event.send p fd bytes len ret :: post →
      0 ≤ len ∧ len ≤ 4095 ∧
      ∃ pre' q fd' arrow stored,
        pre = pre' ++ [Event.recv q fd' 4095 len stored, Event.coutLen arrow len] ∧
        (stored.length = len.toNat → bytes = stored)) := by
  have hinv := (bufferUse_run buffer script).1
  refine ⟨rfl, ?_, ?_⟩
  · intro p fd maxLen ret data hmem
    obtain ⟨pre, post, hs⟩ := List.append_of_mem hmem
    exact hinv pre _ post hs
  · intro pre p fd bytes len ret post hs
    obtain ⟨hlen, pre', q, fd', arrow, d, hpre, hd⟩ := hinv pre _ post hs
    have hmem : Event.recv q fd' 4095 len d ∈ (run (start buffer) script).trace := by
      rw [hs, hpre]
      simp
    have hle : len ≤ ((4095 : Nat) : Int) := hrecv _ hmem
    exact ⟨hlen, by exact_mod_cast hle, pre', q, fd', arrow, d, hpre, hd⟩

/-- C10 at a run that serves one client: "ping" is forwarded upstream and one
response chunk of two bytes comes back. -/
theorem buffer_bounds_witness :
    (∀ e ∈ (run (start []) [Resp.int 0, Resp.int 3, Resp.int 0, Resp.int 0, Resp.int 4,
        Resp.int 0, Resp.int 5, Resp.int 0, Resp.chunk [112, 105, 110, 103], Resp.int 4,
        Resp.chunk [1, 2], Resp.int 2, Resp.int 0]).trace, e.recvOk) ∧
    ∀ pre p fd bytes len ret post,
      (run (start []) [Resp.int 0, Resp.int 3, Resp.int 0, Resp.int 0, Resp.int 4,
        Resp.int 0, Resp.int 5, Resp.int 0, Resp.chunk [112, 105, 110, 103], Resp.int 4,
        Resp.chunk [1, 2], Resp.int 2, Resp.int 0]).trace =
          pre ++ Event.send p fd bytes len ret :: post →
      0 ≤ len ∧ len ≤ 4095 ∧
      ∃ pre' q fd' arrow stored,
        pre = pre' ++ [Event.recv q fd' 4095 len stored, Event.coutLen arrow len] ∧
        (stored.length = len.toNat → bytes = stored) :=
  ⟨by decide, (buffer_bounds [] _ (by decide)).2.2⟩

/-! ### Strict serialization -/

theorem curKeys_append (tr evs : List Event) :
    curKeys (tr ++ evs) = evs.foldl track (curKeys tr) := by
  simp [curKeys, List.foldl_append]

theorem foldl_track_quiet (mid : List Event) (hmid : ∀ e ∈ mid, e.isAccept = false)
    (ks : List Key) : mid.foldl track (some ks) = some (ks ++ mid.filterMap key) := by
  induction mid generalizing ks with
  | nil => simp
  | cons e es ih =>
    have he := hmid e (List.mem_cons_self _ _)
    have hes := fun x hx => hmid x (List.mem_cons_of_mem _ hx)
    have ht : track (some ks) e = some (ks ++ (key e).toList) := by
      cases e <;> simp_all [track, Event.isAccept]
    rw [List.foldl_cons, ht, ih hes]
    cases hk : key e <;> simp [List.filterMap_cons, hk]

/-- The milestones since an `accept` that no other `accept` follows. -/
theorem curKeys_split (pre mid : List Event) (lfd cfd : Int)
    (hmid : ∀ e ∈ mid, e.isAccept = false) :
    curKeys (pre ++ Event.accept lfd cfd :: mid) =
      some (Key.accepted lfd cfd :: mid.filterMap key) := by
  rw [curKeys_append, List.foldl_cons]
  have : track (curKeys pre) (Event.accept lfd cfd) = some [Key.accepted lfd cfd] := rfl
  rw [this, foldl_track_quiet mid hmid]
  simp

theorem serial_of_not_accept (pre : List Event) (e : Event) (h : e.isAccept = false) :
    serial pre e := by
  intro h'
  rw [h] at h'
  cases h'

theorem serial_append_quiet (tr evs : List Event) (h : EachAfter serial tr)
    (hall : evs.all (fun e => !e.isAccept) = true) : EachAfter serial (tr ++ evs) :=
  eachAfter_append_of _ _ _ h (fun e he pre =>
    serial_of_not_accept pre e (by simpa using List.all_eq_true.1 hall e he))

theorem serial_append_accept (tr : List Event) (e : Event) (evs : List Event)
    (h : EachAfter serial tr) (he : serial tr e)
    (hall : evs.all (fun e => !e.isAccept) = true) : EachAfter serial (tr ++ e :: evs) := by
  have := serial_append_quiet (tr ++ [e]) evs (eachAfter_snoc _ _ _ h he) hall
  simpa using this

theorem serial_step (s : State) (r : Resp) (h1 : EachAfter serial s.trace) (h2 : stage s) :
    EachAfter serial (step s r).trace ∧ stage (step s r) := by
  cases s with
  | mk pc buffer tr =>
  simp only at h1
  cases pc
  case accept lfd =>
    simp only [stage] at h2
    have hser : serial tr (Event.accept lfd r.ret) := by
      intro _
      rcases h2 with h | ⟨cfd, sfd, h⟩
      · exact Or.inl h
      · exact Or.inr ⟨lfd, cfd, sfd, h⟩
    simp only [step, State.exit, State.goto]
    split_ifs
    · exact ⟨serial_append_accept _ _ _ h1 hser
        (by simp only [Socket.dtor]; split_ifs <;> simp [Event.isAccept]), trivial⟩
    · refine ⟨serial_append_accept _ _ _ h1 hser (by simp [Event.isAccept]), ?_⟩
      simp [stage, curKeys_append, track, key]
  case exited code =>
    exact ⟨by simpa [step] using h1, by simp [step, stage]⟩
  case recvServer lfd cfd sfd =>
    simp only [stage] at h2
    obtain ⟨hsfd, hk⟩ := h2
    simp only [step, State.exit, State.goto]
    split_ifs with hr hr' <;>
      refine ⟨serial_append_quiet _ _ h1
        (by (try simp only [Socket.dtor]); (try split_ifs) <;> simp [Event.isAccept]), ?_⟩
    · have h0 : r.ret ≠ 0 := by omega
      simp [stage, curKeys_append, track, key, hk, hsfd, h0]
    · trivial
    · have h0 : r.ret = 0 := by omega
      simp [stage, curKeys_append, track, key, hk, hsfd, h0, Socket.dtor, cycle]
  all_goals
    simp only [stage] at h2
    simp only [step, State.exit, State.goto]
    split_ifs <;>
      refine ⟨serial_append_quiet _ _ h1
        (by (try simp only [Socket.dtor]); (try split_ifs) <;> simp [Event.isAccept]), ?_⟩ <;>
      (simp only [stage, curKeys_append]; try simp_all [track, key, Socket.dtor, cycle])

theorem serial_run (buffer : List Byte) (script : List Resp) :
    EachAfter serial (run (start buffer) script).trace ∧ stage (run (start buffer) script) := by
  induction script using List.reverseRecOn with
  | nil => exact ⟨eachAfter_nil _, rfl⟩
  | append_singleton init r ih =>
    rw [run_snoc]
    exact serial_step _ r ih.1 ih.2

/-- C6: in the trace of every run, take an `accept` and the events `mid` after
it up to the next `accept` call, be that next call one that has returned (it is
in the trace) or the one `main` is waiting in.  Then the milestones among `mid`
are, in this order and nothing else: one upstream `connect` that returned `0`,
one client `recv`, one upstream `send`, the upstream `recv` that returned `0`,
and the `close` of that same upstream descriptor. -/
theorem strict_serialization (buffer : List Byte) (script : List Resp)
    (pre mid : List Event) (a1 : Event)
    (h1 : a1.isAccept = true) (hmid : ∀ e ∈ mid, e.isAccept = false)
    (hnext :
      (∃ a2 post, a2.isAccept = true ∧
        (run (start buffer) script).trace = pre ++ a1 :: mid ++ a2 :: post) ∨
      ((∃ lfd, (run (start buffer) script).pc = .accept lfd) ∧
        (run (start buffer) script).trace = pre ++ a1 :: mid)) :
    ∃ lfd cfd sfd, a1 = .accept lfd cfd ∧
      mid.filterMap key =
        [.connect sfd 0, .clientRecv cfd, .upstreamSend sfd, .upstreamEof sfd, .closed sfd] := by
  obtain ⟨hall, hstage⟩ := serial_run buffer script
  cases a1 <;> simp [Event.isAccept] at h1
  rename_i lfd cfd
  have hk := curKeys_split pre mid lfd cfd hmid
  have hcyc : ∃ l c s, curKeys (pre ++ Event.accept lfd cfd :: mid) = some (cycle l c s) := by
    rcases hnext with ⟨a2, post, ha2, hs⟩ | ⟨⟨l, hpc⟩, hs⟩
    · have := hall (pre ++ Event.accept lfd cfd :: mid) a2 post (by simp [hs]) ha2
      rcases this with h | h
      · rw [hk] at h
        cases h
      · exact h
    · unfold stage at hstage
      rw [hpc, hs] at hstage
      rcases hstage with h | ⟨c, s, h⟩
      · rw [hk] at h
        cases h
      · exact ⟨l, c, s, h⟩
  obtain ⟨l, c, s, hc⟩ := hcyc
  rw [hk] at hc
  simp only [cycle, Option.some.injEq, List.cons.injEq, Key.accepted.injEq] at hc
  obtain ⟨⟨hl, hcfd⟩, hrest⟩ := hc
  subst hl hcfd
  exact ⟨lfd, cfd, s, rfl, hrest⟩

/-- C6 at a run that serves one client ("ping" out, "ping" twice back) and
accepts the next. -/
theorem strict_serialization_witness :
    ∃ lfd cfd sfd, Event.accept 3 4 = Event.accept lfd cfd ∧
      List.filterMap key
        [.cout "New connection from: ", .getaddrinfo SERVER_HOST SERVER_PORT 0, .socket 5,
         .setsockopt 5, .connect 5 0, .cout "Connected to server.", .freeaddrinfo,
         .recv .client 4 4095 4 [112, 105, 110, 103], .coutLen "->*   " 4,
         .send .upstream 5 [112, 105, 110, 103] 4 4, .coutLen "  *-> " 4,
         .recv .upstream 5 4095 4 [112, 105, 110, 103], .coutLen "  *<- " 4,
         .send .client 4 [112, 105, 110, 103] 4 4, .coutLen "<-*   " 4,
         .recv .upstream 5 4095 4 [112, 105, 110, 103], .coutLen "  *<- " 4,
         .send .client 4 [112, 105, 110, 103] 4 4, .coutLen "<-*   " 4,
         .recv .upstream 5 4095 0 [], .close 5] =
        [.connect sfd 0, .clientRecv cfd, .upstreamSend sfd, .upstreamEof sfd, .closed sfd] :=
  strict_serialization [] [Resp.int 0, Resp.int 3, Resp.int 0, Resp.int 0, Resp.int 4,
      Resp.int 0, Resp.int 5, Resp.int 0, Resp.chunk [112, 105, 110, 103], Resp.int 4,
      Resp.chunk [112, 105, 110, 103], Resp.int 4, Resp.chunk [112, 105, 110, 103], Resp.int 4,
      Resp.int 0, Resp.int 5]
    [.getaddrinfo PROXY_HOST PROXY_PORT 0, .socket 3, .setsockopt 3, .bind 3 0, .freeaddrinfo,
     .listen 3 0, .cout "Listening for connections on: 0.0.0.0, 8000"]
    _ (Event.accept 3 4) rfl (by decide)
    (Or.inl ⟨Event.accept 3 5, [.cout "New connection from: "], rfl, by decide⟩)

/-! ### The client descriptor -/

/-- C3 at a run whose first iteration ends with upstream closing: `main` waits
in the next `accept`, and the only `close` it has performed is that of the
upstream descriptor 5; the client descriptor 4, returned by `accept`, is still
open. -/
theorem graceful_close_keeps_client_open :
    (run (start []) (setupScript ++ pingScript 4 5)).pc = .accept 3 ∧
    (run (start []) (setupScript ++ pingScript 4 5)).trace.filter Event.isClose =
      [Event.close 5] ∧
    Event.accept 3 4 ∈ (run (start []) (setupScript ++ pingScript 4 5)).trace ∧
    Event.close 4 ∉ (run (start []) (setupScript ++ pingScript 4 5)).trace ∧
    openClients (run (start []) (setupScript ++ pingScript 4 5)).trace = [4] := by
  decide

/-- C5 at a run that serves one client and accepts a second: when the second
iteration begins the client descriptor of the first is still open, and after the
second `accept` two client descriptors are open. -/
theorem two_client_descriptors_open :
    (run (start []) (setupScript ++ pingScript 4 5)).pc = .accept 3 ∧
    openClients (run (start []) (setupScript ++ pingScript 4 5)).trace = [4] ∧
    (run (start []) (setupScript ++ pingScript 4 5 ++ [Resp.int 5])).pc = .gaiServer 3 5 ∧
    openClients (run (start []) (setupScript ++ pingScript 4 5 ++ [Resp.int 5])).trace =
      [4, 5] := by
  decide

/-- C8 at the two upstream failures after a client was accepted on descriptor 4:
when the upstream `connect` fails, and when resolving the upstream address
fails, `main` logs, performs no `recv` or `send` on the client, and returns `1`
having closed the upstream and the listening descriptor but not descriptor 4. -/
theorem upstream_failure_keeps_client_open :
    (run (start []) (setupScript ++ [Resp.int 4, Resp.int 0, Resp.int 5, Resp.int (-1)])).pc =
      .exited 1 ∧
    (run (start []) (setupScript ++ [Resp.int 4, Resp.int 0, Resp.int 5, Resp.int (-1)])).trace.filter
      (fun e => e.isClose || e.isRecvFrom .client || e.isSendTo .client) =
      [Event.close 5, Event.close 3] ∧
    Event.cerr "Connect server failed." ∈
      (run (start []) (setupScript ++ [Resp.int 4, Resp.int 0, Resp.int 5, Resp.int (-1)])).trace ∧
    openClients
      (run (start []) (setupScript ++ [Resp.int 4, Resp.int 0, Resp.int 5, Resp.int (-1)])).trace =
      [4] ∧
    (run (start []) (setupScript ++ [Resp.int 4, Resp.int (-2)])).pc = .exited 1 ∧
    (run (start []) (setupScript ++ [Resp.int 4, Resp.int (-2)])).trace.filter
      (fun e => e.isClose || e.isRecvFrom .client || e.isSendTo .client) = [Event.close 3] ∧
    Event.cerrGai "error gai_res_server 2: " (-2) ∈
      (run (start []) (setupScript ++ [Resp.int 4, Resp.int (-2)])).trace ∧
    openClients (run (start []) (setupScript ++ [Resp.int 4, Resp.int (-2)])).trace = [4] := by
  decide

end Proxy
